import Mathlib

/-!
# Verification of the rocBLAS symv / syr BLAS-2 kernel layer

Shallow embedding of `library/src/blas2/rocblas_symv.hpp` and
`library/src/blas2/rocblas_syr.hpp`.  Device memory buffers are modelled as
total functions `Int → Int` (exact integer arithmetic stands in for the
numeric element type `T`; all the properties checked here are about index
arithmetic, control flow and which elements are read/written, none about
floating-point rounding).  The SIMT grid is collapsed to its per-row /
per-position effect, which is sound because the launch geometry assigns every
output row (symv) / output position (syr) to exactly one worker and the only
cross-worker communication is the per-tile scratch reduction, embedded below
in the same summation order.
-/

/-- The `rocblas_fill` enum (triangle selector).  The C enum also has a
`full` value, which both argument checkers reject. -/
inductive rocblas_fill where
  | upper : rocblas_fill
  | lower : rocblas_fill
  | full : rocblas_fill
deriving DecidableEq, Repr

/-- The `rocblas_status` values returned by the validation and dispatch layer
(`rocblas_status_success`, `rocblas_status_invalid_value`, ...;
`continue_` stands for `rocblas_status_continue`). -/
inductive rocblas_status where
  | success : rocblas_status
  | invalid_value : rocblas_status
  | invalid_size : rocblas_status
  | invalid_pointer : rocblas_status
  | not_implemented : rocblas_status
  | continue_ : rocblas_status
deriving DecidableEq, Repr

/-- The handle's pointer-residency mode (`rocblas_pointer_mode_host` /
`rocblas_pointer_mode_device`). -/
inductive PointerMode where
  | host : PointerMode
  | device : PointerMode
deriving DecidableEq, Repr

/-- A nullable pointer, as far as argument validation observes it:
`none` models a null pointer. -/
def Ptr : Type := Option Unit

instance : DecidableEq Ptr := inferInstanceAs (DecidableEq (Option Unit))

/-- A non-null pointer (validation only looks at nullness). -/
def Ptr.valid : Ptr := some ()

/-- The null pointer. -/
def Ptr.null : Ptr := none

/-- A device memory buffer: element value at each (integer) element index.
Indices may be negative relative to a shifted base pointer. -/
def Mem : Type := Int → Int

/-- Single-cell store `m[a] := v`. -/
def updMem (m : Mem) (a : Int) (v : Int) : Mem :=
  fun b => if b = a then v else m b

/-- The view of a buffer from a shifted base pointer `p + o`. -/
def view (m : Mem) (o : Int) : Mem :=
  fun i => m (o + i)

/-- Write a per-instance view back at its base offset: address `a` of the
underlying buffer is address `a - o` of the view. -/
def unview (m' : Mem) (o : Int) : Mem :=
  fun a => m' (a - o)

/-! ## symv kernel (`rocblas_symv.hpp`) -/

/-- Triangle-resolved load of `A` inside the symv column loop
(`symv_kernel_calc`): when `col >= ind` read
`upper ? A[ind + col*lda] : A[col + ind*lda]`, otherwise read
`!upper ? A[ind + col*lda] : A[col + ind*lda]`. -/
def symv_read (upper : Bool) (A : Mem) (lda : Int) (ind col : Nat) : Int :=
  if ind ≤ col then
    (if upper then A (ind + col * lda) else A (col + ind * lda))
  else
    (if !upper then A (ind + col * lda) else A (col + ind * lda))

/-- The column loop `for(col = ty; col < n; col += DIM_Y)` of one symv worker:
the body accumulates `tmp_A * x[col*incx]` but only when the worker's row
`ind` is in range (`if(ind < n)`).  `fuel` bounds the number of iterations;
`fuel = n` is enough whenever `DIM_Y ≥ 1` since `col` grows by at least one
per step. -/
def symv_col_loop (upper : Bool) (n : Nat) (A : Mem) (lda : Int) (x : Mem)
    (incx : Int) (ind : Nat) (DIM_Y : Nat) : Nat → Nat → Int
  | 0, _ => 0
  | fuel + 1, col =>
    if col < n then
      (if ind < n then symv_read upper A lda ind col * x (col * incx) else 0)
        + symv_col_loop upper n A lda x incx ind DIM_Y fuel (col + DIM_Y)
    else 0

/-- `res_A` of the symv worker with local coordinates `(tx, ty)` owning global
row `ind`: its partial sum over the columns `ty, ty + DIM_Y, ty + 2·DIM_Y, …`
strictly below `n`. -/
def symv_res_A (upper : Bool) (n : Nat) (A : Mem) (lda : Int) (x : Mem)
    (incx : Int) (ind ty DIM_Y : Nat) : Int :=
  symv_col_loop upper n A lda x incx ind DIM_Y n ty

/-- The shared-memory reduction of `symv_kernel_calc`: the `ty = 0` lane of a
row accumulates the `DIM_Y` partial sums left-associatively
(`for(i = 1; i < DIM_Y; i++) sdata[tid] += sdata[tid + DIM_X*i]`). -/
def symv_reduce (f : Nat → Int) : Nat → Int
  | 0 => 0
  | i + 1 => symv_reduce f i + f i

/-- Value written to `y[ind*incy]` by `symv_kernel_calc` for row `ind < n`:
the `!alpha` fast path writes `beta ? beta*y[ind*incy] : 0`; otherwise the
final combine writes
`beta ? alpha*sdata[tid] + beta*y[ind*incy] : alpha*sdata[tid]`. -/
def symv_kernel_calc_row (upper : Bool) (n : Nat) (alpha : Int) (A : Mem)
    (lda : Int) (x : Mem) (incx : Int) (beta : Int) (y : Mem) (incy : Int)
    (DIM_Y : Nat) (ind : Nat) : Int :=
  if alpha = 0 then
    (if beta ≠ 0 then beta * y (ind * incy) else 0)
  else
    (if beta ≠ 0 then
      alpha * symv_reduce (fun ty => symv_res_A upper n A lda x incx ind ty DIM_Y) DIM_Y
        + beta * y (ind * incy)
    else
      alpha * symv_reduce (fun ty => symv_res_A upper n A lda x incx ind ty DIM_Y) DIM_Y)

/-- Addresses of `y` read (before being written) by the worker owning row
`ind` in `symv_kernel_calc`: in both the `!alpha` fast path and the final
combine, `y[ind*incy]` is read exactly when `beta` is non-zero — the ternary
`beta ? … * y[ind*incy] … : …` only dereferences `y` in its first branch. -/
def symv_kernel_calc_row_y_reads (alpha beta : Int) (incy : Int) (ind : Nat) : List Int :=
  if alpha = 0 then
    (if beta ≠ 0 then [(ind : Int) * incy] else [])
  else
    (if beta ≠ 0 then [(ind : Int) * incy] else [])

/-- Sequence of single-cell stores `y[r*incy] := val r` for each row
`r < rows`; each `val r` is computed from the pre-kernel `y` (in the source,
each worker reads only the cell it alone writes). -/
def writeRows (y0 : Mem) (incy : Int) (val : Nat → Int) : Nat → Mem
  | 0 => y0
  | r + 1 => updMem (writeRows y0 incy val r) (r * incy) (val r)

/-- Memory effect of `symv_kernel_calc` over the whole grid: every row
`ind < n` is written by its unique owning worker (workers whose `ind ≥ n`
are masked out and write nothing). -/
def symv_kernel_calc_mem (upper : Bool) (n : Nat) (alpha : Int) (A : Mem)
    (lda : Int) (x : Mem) (incx : Int) (beta : Int) (y : Mem) (incy : Int)
    (DIM_Y : Nat) : Mem :=
  writeRows y incy (symv_kernel_calc_row upper n alpha A lda x incx beta y incy DIM_Y) n

/-- Tile width used by the symv dispatcher (`symv_DIM_X = 64`). -/
def symv_DIM_X : Nat := 64

/-- Tile height used by the symv dispatcher (`symv_DIM_Y = 16`). -/
def symv_DIM_Y : Nat := 16

/-- Body of `symv_kernel` after the launch-configuration guard: per batch
instance, `load_scalar` has already resolved `alpha`/`beta`; if
`!alpha && beta == 1` the instance returns leaving `y` untouched (before any
pointer is even formed), else `symv_kernel_calc` runs. -/
def symv_kernel_after_guard (DIM_Y : Nat) (upper : Bool) (n : Nat)
    (alpha beta : Int) (A : Mem) (lda : Int) (x : Mem) (incx : Int)
    (y : Mem) (incy : Int) : Mem :=
  if alpha = 0 ∧ beta = 1 then y
  else symv_kernel_calc_mem upper n alpha A lda x incx beta y incy DIM_Y

/-- One batch instance of `symv_kernel`, `num_threads` being
`blockDim.x * blockDim.y * blockDim.z` of the launch: if
`DIM_X * DIM_Y != num_threads` every worker returns at once, touching no
memory. -/
def symv_kernel (DIM_X DIM_Y num_threads : Nat) (upper : Bool) (n : Nat)
    (alpha beta : Int) (A : Mem) (lda : Int) (x : Mem) (incx : Int)
    (y : Mem) (incy : Int) : Mem :=
  if DIM_X * DIM_Y ≠ num_threads then y
  else symv_kernel_after_guard DIM_Y upper n alpha beta A lda x incx y incy

/-- Negative-increment base shift computed by both dispatchers
(`shiftx = incx < 0 ? offsetx - ptrdiff_t(incx) * (n - 1) : offsetx`). -/
def shift_offset (offset : Int) (inc : Int) (n : Nat) : Int :=
  if inc < 0 then offset - inc * ((n : Int) - 1) else offset

/-- Host-pointer-mode batched launch of `symv_kernel`
(`rocblas_internal_symv_template`, `else` branch): the grid's second
dimension runs over the batch; in host mode `load_scalar` returns the
pre-launch values `*alpha`, `*beta` unchanged for every instance, and the
instance `b` views of the buffers sit at
`shift + b*stride` (`load_ptr_batch`). -/
def symv_batched_launch (upper : Bool) (n : Nat) (alpha beta : Int)
    (A : Mem) (shifta lda strideA : Int) (x : Mem) (shiftx incx stridex : Int)
    (y : Mem) (shifty incy stridey : Int) : Nat → Mem
  | 0 => y
  | b + 1 =>
    let y' := symv_batched_launch upper n alpha beta A shifta lda strideA x
      shiftx incx stridex y shifty incy stridey b
    unview
      (symv_kernel symv_DIM_X symv_DIM_Y (symv_DIM_X * symv_DIM_Y) upper n
        alpha beta (view A (shifta + b * strideA)) lda
        (view x (shiftx + b * stridex)) incx
        (view y' (shifty + b * stridey)) incy)
      (shifty + b * stridey)

/-- Host-pointer-mode `rocblas_internal_symv_template`: quick return on
`!n || !batch_count`; negative-increment shifts on `x` and `y`; a
non-batched-only short-circuit when `*alpha == 0 && *beta == 1`
(`// quick return only for non-batched`); otherwise the kernel grid is
launched and the call returns success. -/
def rocblas_internal_symv_template_host (upper : Bool) (n : Nat) (alpha : Int)
    (A : Mem) (offseta lda strideA : Int) (x : Mem) (offsetx incx stridex : Int)
    (beta : Int) (y : Mem) (offsety incy stridey : Int) (batch_count : Nat) :
    rocblas_status × Mem :=
  if n = 0 ∨ batch_count = 0 then (rocblas_status.success, y)
  else
    let shiftx := shift_offset offsetx incx n
    let shifty := shift_offset offsety incy n
    if batch_count = 1 ∧ alpha = 0 ∧ beta = 1 then (rocblas_status.success, y)
    else
      (rocblas_status.success,
        symv_batched_launch upper n alpha beta A offseta lda strideA x shiftx
          incx stridex y shifty incy stridey batch_count)

/-- `rocblas_symv_arg_check` (`rocblas_symv.hpp`): note the host-mode strided
scalar check is the FIRST check, before the triangle selector, the size
checks, and the `!n || !batch_count` quick return. -/
def rocblas_symv_arg_check (pointer_mode : PointerMode) (uplo : rocblas_fill)
    (n : Int) (alpha : Ptr) (stride_alpha : Int) (A : Ptr) (lda : Int)
    (x : Ptr) (incx : Int) (beta : Ptr) (stride_beta : Int) (y : Ptr)
    (incy : Int) (batch_count : Int) : rocblas_status :=
  if pointer_mode = PointerMode.host ∧ (stride_alpha ≠ 0 ∨ stride_beta ≠ 0) then
    rocblas_status.not_implemented
  else if uplo ≠ rocblas_fill.lower ∧ uplo ≠ rocblas_fill.upper then
    rocblas_status.invalid_value
  else if n < 0 ∨ lda < n ∨ lda < 1 ∨ incx = 0 ∨ incy = 0 ∨ batch_count < 0 then
    rocblas_status.invalid_size
  else if n = 0 ∨ batch_count = 0 then
    rocblas_status.success
  else if A = Ptr.null ∨ x = Ptr.null ∨ y = Ptr.null ∨ alpha = Ptr.null ∨ beta = Ptr.null then
    rocblas_status.invalid_pointer
  else
    rocblas_status.continue_

/-! ## syr kernel (`rocblas_syr.hpp`) -/

/-- Worker activity predicate of `rocblas_syr_kernel`:
`uplo == rocblas_fill_lower ? tx < n && ty <= tx : ty < n && tx <= ty`. -/
def syr_active (uplo : rocblas_fill) (n tx ty : Nat) : Prop :=
  if uplo = rocblas_fill.lower then tx < n ∧ ty ≤ tx else ty < n ∧ tx ≤ ty

instance (uplo : rocblas_fill) (n tx ty : Nat) : Decidable (syr_active uplo n tx ty) := by
  unfold syr_active; infer_instance

/-- Effect of the syr worker at grid position `(tx, ty)`: if active it
performs `A[tx + lda*ty] += alpha * x[tx*incx] * x[ty*incx]`, else nothing. -/
def syr_upd (uplo : rocblas_fill) (n : Nat) (alpha : Int) (x : Mem)
    (incx lda : Int) (tx ty : Nat) (A : Mem) : Mem :=
  if syr_active uplo n tx ty then
    updMem A (tx + lda * ty) (A (tx + lda * ty) + alpha * x (tx * incx) * x (ty * incx))
  else A

/-- Row sweep: workers `(0, ty), (1, ty), …, (txs - 1, ty)`. -/
def syr_loop_tx (uplo : rocblas_fill) (n : Nat) (alpha : Int) (x : Mem)
    (incx lda : Int) (ty : Nat) : Nat → Mem → Mem
  | 0, A => A
  | tx + 1, A => syr_upd uplo n alpha x incx lda tx ty (syr_loop_tx uplo n alpha x incx lda ty tx A)

/-- Full grid sweep: every `(tx, ty)` with `tx < txs`, `ty < tys`.  The
launch geometry `⌈n/DIM_X⌉·DIM_X × ⌈n/DIM_Y⌉·DIM_Y` covers every pair below
`(n, n)`, and the activity predicate masks everything at or beyond `n`, so
sweeping `n × n` positions is the per-instance grid effect.  The sweep order
is immaterial in the source (each address is written by exactly one worker,
proved below). -/
def syr_loop (uplo : rocblas_fill) (n : Nat) (alpha : Int) (x : Mem)
    (incx lda : Int) (txs : Nat) : Nat → Mem → Mem
  | 0, A => A
  | ty + 1, A => syr_loop_tx uplo n alpha x incx lda ty txs (syr_loop uplo n alpha x incx lda txs ty A)

/-- One batch instance of `rocblas_syr_kernel` after scalar resolution: if
the resolved `alpha` is zero every worker returns before loading any pointer;
otherwise the whole grid updates the selected triangle. -/
def rocblas_syr_kernel (uplo : rocblas_fill) (n : Nat) (alpha : Int)
    (x : Mem) (incx : Int) (A : Mem) (lda : Int) : Mem :=
  if alpha = 0 then A
  else syr_loop uplo n alpha x incx lda n n A

/-- `rocblas_syr_arg_check` (`rocblas_syr.hpp`): unlike symv, there is no
pointer-mode/stride check at all — the checker does not even receive the
handle, so it can never return `not_implemented`. -/
def rocblas_syr_arg_check (uplo : rocblas_fill) (n : Int) (alpha : Ptr)
    (stride_alpha : Int) (x : Ptr) (incx : Int) (A : Ptr) (lda : Int)
    (batch_count : Int) : rocblas_status :=
  if uplo ≠ rocblas_fill.lower ∧ uplo ≠ rocblas_fill.upper then
    rocblas_status.invalid_value
  else if n < 0 ∨ incx = 0 ∨ lda < n ∨ lda < 1 ∨ batch_count < 0 then
    rocblas_status.invalid_size
  else if n = 0 ∨ batch_count = 0 then
    rocblas_status.success
  else if alpha = Ptr.null ∨ x = Ptr.null ∨ A = Ptr.null then
    rocblas_status.invalid_pointer
  else
    rocblas_status.continue_

/-- Modelled from the spec: the syr API layer (not under `src/`) runs
validation and, on `continue`, calls `rocblas_internal_syr_template`, which
always schedules the launch and returns success — §4.1/§7: "either the whole
batched call is rejected up front, or all batch instances are scheduled".
Only the status is modelled here; `pointer_mode` is passed to exhibit that
the syr validation path never consults it. -/
def rocblas_syr_call_status (pointer_mode : PointerMode) (uplo : rocblas_fill)
    (n : Int) (alpha : Ptr) (stride_alpha : Int) (x : Ptr) (incx : Int)
    (A : Ptr) (lda : Int) (batch_count : Int) : rocblas_status :=
  let s := rocblas_syr_arg_check uplo n alpha stride_alpha x incx A lda batch_count
  if s = rocblas_status.continue_ then rocblas_status.success else s

/-! ## Specification-side definitions (for refinement statements) -/

/-- Membership of position `(r, c)` in the stored triangle. -/
def onTriangle (upper : Bool) (r c : Nat) : Prop :=
  if upper then r ≤ c else c ≤ r

instance (upper : Bool) (r c : Nat) : Decidable (onTriangle upper r c) := by
  unfold onTriangle; infer_instance

/-- The logical symmetric matrix induced by the stored triangle, following
the spec's words: entry `(r, c)` is read from the stored entry when `(r, c)`
lies on the selected triangle and from the mirrored stored entry `A[c, r]`
otherwise (column-major: entry `(i, j)` lives at `i + j*lda`). -/
def A_sym (upper : Bool) (A : Mem) (lda : Int) (r c : Nat) : Int :=
  if onTriangle upper r c then A (r + c * lda) else A (c + r * lda)

/-- Mathematical result of one symv row, following the spec's words:
`beta*y_old[r] + alpha * Σ_{c < n} A_sym[r, c] * x[c]`. -/
def symv_spec_row (upper : Bool) (n : Nat) (alpha : Int) (A : Mem) (lda : Int)
    (x : Mem) (incx : Int) (beta : Int) (y : Mem) (incy : Int) (r : Nat) : Int :=
  beta * y (r * incy) + alpha * ∑ c ∈ Finset.range n, A_sym upper A lda r c * x (c * incx)

/-! ## Lemmas about the symv embedding -/

theorem writeRows_at (y0 : Mem) (incy : Int) (hy : incy ≠ 0) (val : Nat → Int) :
    ∀ (rows r : Nat), r < rows → writeRows y0 incy val rows ((r : Int) * incy) = val r := by
  intro rows
  induction rows with
  | zero => intro r hr; omega
  | succ m ih =>
    intro r hr
    by_cases hrm : r = m
    · subst hrm
      simp [writeRows, updMem]
    · have hlt : r < m := by omega
      have hne : (r : Int) * incy ≠ (m : Int) * incy := by
        intro h
        have : (r : Int) = (m : Int) := mul_right_cancel₀ hy h
        exact hrm (by exact_mod_cast this)
      simp only [writeRows, updMem, if_neg hne]
      exact ih r hlt

theorem writeRows_frame (y0 : Mem) (incy : Int) (val : Nat → Int) :
    ∀ (rows : Nat) (a : Int), (∀ r : Nat, r < rows → a ≠ (r : Int) * incy) →
      writeRows y0 incy val rows a = y0 a := by
  intro rows
  induction rows with
  | zero => intro a _; rfl
  | succ m ih =>
    intro a ha
    simp only [writeRows, updMem, if_neg (ha m (by omega))]
    exact ih a fun r hr => ha r (by omega)

theorem unview_view (m : Mem) (o : Int) : unview (view m o) o = m := by
  funext a
  show m (o + (a - o)) = m a
  congr 1
  ring

theorem symv_col_loop_eq_sum (upper : Bool) (n : Nat) (A : Mem) (lda : Int)
    (x : Mem) (incx : Int) (ind : Nat) :
    ∀ fuel col, n ≤ fuel + col →
      symv_col_loop upper n A lda x incx ind 16 fuel col
      = ∑ c ∈ (Finset.range n).filter (fun c => col ≤ c ∧ (c - col) % 16 = 0),
          (if ind < n then symv_read upper A lda ind c * x ((c : Int) * incx) else 0) := by
  intro fuel
  induction fuel with
  | zero =>
    intro col hcol
    have hempty : (Finset.range n).filter (fun c => col ≤ c ∧ (c - col) % 16 = 0) = ∅ := by
      refine Finset.filter_eq_empty_iff.mpr ?_
      intro c hc
      simp only [Finset.mem_range] at hc
      omega
    simp [symv_col_loop, hempty]
  | succ fuel ih =>
    intro col hcol
    by_cases hlt : col < n
    · have hset : (Finset.range n).filter (fun c => col ≤ c ∧ (c - col) % 16 = 0)
          = insert col ((Finset.range n).filter (fun c => col + 16 ≤ c ∧ (c - (col + 16)) % 16 = 0)) := by
        ext c
        simp only [Finset.mem_filter, Finset.mem_range, Finset.mem_insert]
        omega
      have hnotmem : col ∉ (Finset.range n).filter (fun c => col + 16 ≤ c ∧ (c - (col + 16)) % 16 = 0) := by
        simp only [Finset.mem_filter, Finset.mem_range]
        omega
      rw [symv_col_loop, if_pos hlt, ih (col + 16) (by omega), hset,
        Finset.sum_insert hnotmem]
    · have hempty : (Finset.range n).filter (fun c => col ≤ c ∧ (c - col) % 16 = 0) = ∅ := by
        refine Finset.filter_eq_empty_iff.mpr ?_
        intro c hc
        simp only [Finset.mem_range] at hc
        omega
      rw [symv_col_loop, if_neg hlt, hempty, Finset.sum_empty]

theorem symv_reduce_eq_sum (f : Nat → Int) :
    ∀ D, symv_reduce f D = ∑ i ∈ Finset.range D, f i := by
  intro D
  induction D with
  | zero => rfl
  | succ m ih => rw [symv_reduce, ih, Finset.sum_range_succ]

theorem sum_partition_16 (n : Nat) (g : Nat → Int) :
    ∑ ty ∈ Finset.range 16,
      ∑ c ∈ (Finset.range n).filter (fun c => ty ≤ c ∧ (c - ty) % 16 = 0), g c
    = ∑ c ∈ Finset.range n, g c := by
  have h1 : ∀ ty, ∑ c ∈ (Finset.range n).filter (fun c => ty ≤ c ∧ (c - ty) % 16 = 0), g c
      = ∑ c ∈ Finset.range n, if ty ≤ c ∧ (c - ty) % 16 = 0 then g c else 0 := by
    intro ty
    exact Finset.sum_filter _ _
  calc
    ∑ ty ∈ Finset.range 16,
        ∑ c ∈ (Finset.range n).filter (fun c => ty ≤ c ∧ (c - ty) % 16 = 0), g c
      = ∑ ty ∈ Finset.range 16, ∑ c ∈ Finset.range n,
          if ty ≤ c ∧ (c - ty) % 16 = 0 then g c else 0 := by
        exact Finset.sum_congr rfl fun ty _ => h1 ty
    _ = ∑ c ∈ Finset.range n, ∑ ty ∈ Finset.range 16,
          if ty ≤ c ∧ (c - ty) % 16 = 0 then g c else 0 := Finset.sum_comm
    _ = ∑ c ∈ Finset.range n, g c := by
        refine Finset.sum_congr rfl fun c _ => ?_
        have hcond : ∀ ty ∈ Finset.range 16,
            (if ty ≤ c ∧ (c - ty) % 16 = 0 then g c else 0)
            = if ty = c % 16 then g c else 0 := by
          intro ty hty
          simp only [Finset.mem_range] at hty
          by_cases h : ty = c % 16
          · have : ty ≤ c ∧ (c - ty) % 16 = 0 := by omega
            rw [if_pos this, if_pos h]
          · have : ¬(ty ≤ c ∧ (c - ty) % 16 = 0) := by omega
            rw [if_neg this, if_neg h]
        rw [Finset.sum_congr rfl hcond, Finset.sum_ite_eq' (Finset.range 16) (c % 16) fun _ => g c,
          if_pos (Finset.mem_range.mpr (Nat.mod_lt c (by norm_num)))]

theorem symv_read_eq_A_sym (upper : Bool) (A : Mem) (lda : Int) (ind col : Nat) :
    symv_read upper A lda ind col = A_sym upper A lda ind col := by
  unfold symv_read A_sym onTriangle
  rcases upper with _ | _
  · by_cases h : ind ≤ col
    · rw [if_pos h]
      simp only [Bool.false_eq_true, if_false, Bool.not_false, if_true]
      by_cases h2 : col ≤ ind
      · have : ind = col := by omega
        subst this
        rw [if_pos h2]
      · rw [if_neg h2]
    · rw [if_neg h]
      simp only [Bool.false_eq_true, if_false, Bool.not_false, if_true]
      rw [if_pos (by omega : col ≤ ind)]
  · by_cases h : ind ≤ col
    · rw [if_pos h]
      simp only [if_true]
      rw [if_pos h]
    · rw [if_neg h]
      simp only [Bool.not_true, Bool.false_eq_true, if_false, if_true]
      rw [if_neg (by omega : ¬ ind ≤ col)]

theorem symv_total_eq_sum (upper : Bool) (n : Nat) (A : Mem) (lda : Int)
    (x : Mem) (incx : Int) (ind : Nat) (hind : ind < n) :
    symv_reduce (fun ty => symv_res_A upper n A lda x incx ind ty 16) 16
    = ∑ c ∈ Finset.range n, symv_read upper A lda ind c * x ((c : Int) * incx) := by
  rw [symv_reduce_eq_sum]
  have h1 : ∀ ty, symv_res_A upper n A lda x incx ind ty 16
      = ∑ c ∈ (Finset.range n).filter (fun c => ty ≤ c ∧ (c - ty) % 16 = 0),
          symv_read upper A lda ind c * x ((c : Int) * incx) := by
    intro ty
    rw [symv_res_A, symv_col_loop_eq_sum upper n A lda x incx ind n ty (by omega)]
    exact Finset.sum_congr rfl fun c _ => if_pos hind
  rw [Finset.sum_congr rfl fun ty _ => h1 ty]
  exact sum_partition_16 n _

/-- C1: for every valid symv call (valid triangle selector, any n, lda ≥
max(n,1), non-zero increments), the kernel writes, for every row r < n,
`y[r·incy] := beta·y_old[r·incy] + alpha · Σ_{c<n} A_sym[r,c]·x[c·incx]`,
where `A_sym` reads the stored triangle entry on the selected triangle and
the mirrored stored entry elsewhere. -/
theorem claim_C1_symv_kernel_computes_spec (upper : Bool) (n : Nat)
    (alpha : Int) (A : Mem) (lda : Int) (x : Mem) (incx : Int) (beta : Int)
    (y : Mem) (incy : Int) (hlda : (n : Int) ≤ lda) (hlda1 : 1 ≤ lda)
    (hx : incx ≠ 0) (hy : incy ≠ 0) (r : Nat) (hr : r < n) :
    symv_kernel_calc_mem upper n alpha A lda x incx beta y incy symv_DIM_Y ((r : Int) * incy)
    = symv_spec_row upper n alpha A lda x incx beta y incy r := by
  have h16 : symv_DIM_Y = 16 := rfl
  rw [symv_kernel_calc_mem, writeRows_at y incy hy _ n r hr, symv_kernel_calc_row,
    symv_spec_row, h16]
  by_cases ha : alpha = 0
  · rw [if_pos ha, ha]
    by_cases hb : beta = 0
    · rw [if_neg (fun h => h hb), hb]
      ring
    · rw [if_pos hb]
      ring
  · rw [if_neg ha]
    have hAs : ∑ c ∈ Finset.range n, symv_read upper A lda r c * x ((c : Int) * incx)
        = ∑ c ∈ Finset.range n, A_sym upper A lda r c * x ((c : Int) * incx) :=
      Finset.sum_congr rfl fun c _ => by rw [symv_read_eq_A_sym]
    rw [symv_total_eq_sum upper n A lda x incx r hr, hAs]
    by_cases hb : beta = 0
    · rw [if_neg (fun h => h hb), hb]
      ring
    · rw [if_pos hb]
      ring

/-- Stored upper triangle of the spec's 3×3 test matrix
`A = [[2,1,4],[_,3,5],[_,_,6]]`, column-major with `lda = 3`
(unstored entries hold a sentinel `99` to witness they are not used). -/
def symvA_ex : Mem := fun a =>
  if a = 0 then 2 else if a = 3 then 1 else if a = 4 then 3
  else if a = 6 then 4 else if a = 7 then 5 else if a = 8 then 6 else 99

/-- Test vector `x = [1,2,3]`. -/
def symvx_ex : Mem := fun a =>
  if a = 0 then 1 else if a = 1 then 2 else if a = 2 then 3 else 99

/-- Arbitrary non-zero initial `y` (with `beta = 0` it must not matter). -/
def symvy_ex : Mem := fun _ => 7

/-- Concrete evaluation of the spec's symv test: n = 3, upper storage,
alpha = 2, beta = 0 gives y = [32, 44, 64]. -/
theorem symv_example_values :
    symv_kernel_calc_mem true 3 2 symvA_ex 3 symvx_ex 1 0 symvy_ex 1 symv_DIM_Y 0 = 32
    ∧ symv_kernel_calc_mem true 3 2 symvA_ex 3 symvx_ex 1 0 symvy_ex 1 symv_DIM_Y 1 = 44
    ∧ symv_kernel_calc_mem true 3 2 symvA_ex 3 symvx_ex 1 0 symvy_ex 1 symv_DIM_Y 2 = 64 := by
  refine ⟨?_, ?_, ?_⟩ <;> decide

theorem claim_C1_witness :
    symv_kernel_calc_mem true 3 2 symvA_ex 3 symvx_ex 1 0 symvy_ex 1 symv_DIM_Y (((1 : Nat) : Int) * 1)
    = symv_spec_row true 3 2 symvA_ex 3 symvx_ex 1 0 symvy_ex 1 1 :=
  claim_C1_symv_kernel_computes_spec true 3 2 symvA_ex 3 symvx_ex 1 0 symvy_ex 1
    (by decide) (by decide) (by decide) (by decide) 1 (by decide)

/-- C5 counterexample: the claim says that with resolved `beta = 0` the final
combine still reads `y[r]`, and that only `beta = 1` is special-cased to
avoid the read-multiply.  The source ternary
`y[ind*incy] = beta ? alpha*sdata + beta*y[ind*incy] : alpha*sdata` does the
opposite: at `beta = 0` (here with `alpha = 5`, `ind = 0`, `incy = 1`) the
worker reads no `y` cell at all, while at `beta = 1` it reads `y[0]` and
performs the multiply. -/
theorem claim_C5_counterexample :
    symv_kernel_calc_row_y_reads 5 0 1 0 = []
    ∧ symv_kernel_calc_row_y_reads 5 1 1 0 = [0] := by
  exact ⟨by decide, by decide⟩

/-- C5 (amended): beta is special-cased at the literal constant 0, not at 1:
when the resolved `beta` is 0 the worker skips the read of `y` entirely (the
written value does not depend on `y` at all, in both the `alpha == 0` path
and the final combine), while for every non-zero `beta` — including 1 — it
reads `y[ind*incy]` and performs the multiply `beta * y[ind*incy]`. -/
theorem claim_C5_amended_beta_zero_skips_y (alpha beta incy : Int) (ind : Nat)
    (upper : Bool) (n : Nat) (A : Mem) (lda : Int) (x : Mem) (incx : Int) :
    (beta = 0 → symv_kernel_calc_row_y_reads alpha beta incy ind = [])
    ∧ (beta ≠ 0 → symv_kernel_calc_row_y_reads alpha beta incy ind = [(ind : Int) * incy])
    ∧ (∀ y y' : Mem,
        symv_kernel_calc_row upper n alpha A lda x incx 0 y incy 16 ind
        = symv_kernel_calc_row upper n alpha A lda x incx 0 y' incy 16 ind)
    ∧ (beta ≠ 0 →
        symv_kernel_calc_row upper n alpha A lda x incx beta
          (fun _ => 0) incy 16 ind
        = (if alpha = 0 then beta * 0 else
            alpha * symv_reduce (fun ty => symv_res_A upper n A lda x incx ind ty 16) 16
              + beta * 0)) := by
  refine ⟨?_, ?_, ?_, ?_⟩
  · intro hb
    simp [symv_kernel_calc_row_y_reads, hb]
  · intro hb
    simp [symv_kernel_calc_row_y_reads, hb]
  · intro y y'
    simp [symv_kernel_calc_row]
  · intro hb
    simp [symv_kernel_calc_row, hb]

theorem claim_C5_witness :
    symv_kernel_calc_row_y_reads 2 3 1 4 = [((4 : Nat) : Int) * 1] :=
  (claim_C5_amended_beta_zero_skips_y 2 3 1 4 true 1 (fun _ => 0) 1 (fun _ => 0) 1).2.1
    (by decide)

theorem symv_calc_row_alpha_zero (upper : Bool) (n : Nat) (A : Mem) (lda : Int)
    (x : Mem) (incx : Int) (beta : Int) (y : Mem) (incy : Int) (D : Nat) (ind : Nat) :
    symv_kernel_calc_row upper n 0 A lda x incx beta y incy D ind
    = (if beta ≠ 0 then beta * y ((ind : Int) * incy) else 0) := by
  simp [symv_kernel_calc_row]

theorem symv_calc_mem_alpha_zero (upper : Bool) (n : Nat) (A : Mem) (lda : Int)
    (x : Mem) (incx : Int) (beta : Int) (y : Mem) (incy : Int) (D : Nat) :
    symv_kernel_calc_mem upper n 0 A lda x incx beta y incy D
    = writeRows y incy (fun ind => if beta ≠ 0 then beta * y ((ind : Int) * incy) else 0) n := by
  unfold symv_kernel_calc_mem
  exact congrArg (fun v => writeRows y incy v n)
    (funext fun ind => symv_calc_row_alpha_zero upper n A lda x incx beta y incy D ind)

/-- C6: with a device-resolved `alpha = 0` for a batch instance, the kernel
writes `y[r·incy] := beta·y_old[r·incy]` for every `r < n` (for `beta = 0` the
written literal 0 equals `0·y_old`), touches no other cell, its effect is
independent of `A` and `x` (they are never read — `cond_load_ptr_batch` does
not even form the pointers), and for `beta = 1` it returns at once leaving
`y` untouched. -/
theorem claim_C6_symv_alpha_zero_fast_path (upper : Bool) (n : Nat) (beta : Int)
    (A : Mem) (lda : Int) (x : Mem) (incx : Int) (y : Mem) (incy : Int)
    (hy : incy ≠ 0) :
    (∀ r : Nat, r < n →
      symv_kernel symv_DIM_X symv_DIM_Y (symv_DIM_X * symv_DIM_Y) upper n 0 beta
        A lda x incx y incy ((r : Int) * incy)
      = beta * y ((r : Int) * incy))
    ∧ (∀ a : Int, (∀ r : Nat, r < n → a ≠ (r : Int) * incy) →
        symv_kernel symv_DIM_X symv_DIM_Y (symv_DIM_X * symv_DIM_Y) upper n 0 beta
          A lda x incx y incy a = y a)
    ∧ (∀ (A' x' : Mem) (a : Int),
        symv_kernel symv_DIM_X symv_DIM_Y (symv_DIM_X * symv_DIM_Y) upper n 0 beta
          A lda x incx y incy a
        = symv_kernel symv_DIM_X symv_DIM_Y (symv_DIM_X * symv_DIM_Y) upper n 0 beta
            A' lda x' incx y incy a)
    ∧ (beta = 1 → ∀ a : Int,
        symv_kernel symv_DIM_X symv_DIM_Y (symv_DIM_X * symv_DIM_Y) upper n 0 beta
          A lda x incx y incy a = y a) := by
  have hguard : ∀ (A₀ x₀ : Mem),
      symv_kernel symv_DIM_X symv_DIM_Y (symv_DIM_X * symv_DIM_Y) upper n 0 beta
        A₀ lda x₀ incx y incy
      = symv_kernel_after_guard symv_DIM_Y upper n 0 beta A₀ lda x₀ incx y incy := by
    intro A₀ x₀
    rw [symv_kernel, if_neg (fun h => h rfl)]
  by_cases hb : beta = 1
  · have hall : ∀ (A₀ x₀ : Mem),
        symv_kernel symv_DIM_X symv_DIM_Y (symv_DIM_X * symv_DIM_Y) upper n 0 beta
          A₀ lda x₀ incx y incy = y := by
      intro A₀ x₀
      rw [hguard, symv_kernel_after_guard, if_pos ⟨rfl, hb⟩]
    refine ⟨?_, ?_, ?_, ?_⟩
    · intro r _
      rw [hall, hb, one_mul]
    · intro a _
      rw [hall]
    · intro A' x' a
      rw [hall, hall]
    · intro _ a
      rw [hall]
  · have hmem : ∀ (A₀ x₀ : Mem),
        symv_kernel symv_DIM_X symv_DIM_Y (symv_DIM_X * symv_DIM_Y) upper n 0 beta
          A₀ lda x₀ incx y incy
        = writeRows y incy (fun ind => if beta ≠ 0 then beta * y ((ind : Int) * incy) else 0) n := by
      intro A₀ x₀
      rw [hguard, symv_kernel_after_guard, if_neg (fun h => hb h.2),
        symv_calc_mem_alpha_zero]
    refine ⟨?_, ?_, ?_, ?_⟩
    · intro r hr
      rw [hmem A x, writeRows_at y incy hy _ n r hr]
      by_cases hb0 : beta = 0
      · rw [if_neg (fun h => h hb0), hb0, zero_mul]
      · rw [if_pos hb0]
    · intro a ha
      rw [hmem A x, writeRows_frame y incy _ n a ha]
    · intro A' x' a
      rw [hmem A x, hmem A' x']
    · intro h1
      exact absurd h1 hb

theorem claim_C6_witness :
    symv_kernel symv_DIM_X symv_DIM_Y (symv_DIM_X * symv_DIM_Y) true 1 0 2
      symvA_ex 1 symvx_ex 1 symvy_ex 1 (((0 : Nat) : Int) * 1)
    = 2 * symvy_ex (((0 : Nat) : Int) * 1) :=
  (claim_C6_symv_alpha_zero_fast_path true 1 2 symvA_ex 1 symvx_ex 1 symvy_ex 1
    (by decide)).1 0 (by decide)

theorem symv_batched_launch_alpha0_beta1 (upper : Bool) (n : Nat) (A : Mem)
    (shifta lda strideA : Int) (x : Mem) (shiftx incx stridex : Int)
    (y : Mem) (shifty incy stridey : Int) :
    ∀ batch_count : Nat,
      symv_batched_launch upper n 0 1 A shifta lda strideA x shiftx incx stridex
        y shifty incy stridey batch_count = y := by
  intro batch_count
  induction batch_count with
  | zero => rfl
  | succ b ih =>
    show unview
        (symv_kernel symv_DIM_X symv_DIM_Y (symv_DIM_X * symv_DIM_Y) upper n 0 1
          (view A (shifta + b * strideA)) lda (view x (shiftx + b * stridex)) incx
          (view (symv_batched_launch upper n 0 1 A shifta lda strideA x shiftx incx
            stridex y shifty incy stridey b) (shifty + b * stridey)) incy)
        (shifty + b * stridey) = y
    rw [ih, symv_kernel, if_neg (fun h => h rfl), symv_kernel_after_guard,
      if_pos ⟨rfl, rfl⟩, unview_view]

/-- C8: a host-pointer-mode symv call with `*alpha = 0` and `*beta = 1`
returns success and leaves `y` unchanged for every `n` and every
`batch_count` (the dispatcher short-circuit covers `batch_count = 1`; the
kernel's per-instance `!alpha && beta == 1` early return covers the rest),
and `A` and `x` are never read: the result is the same for every `A` and
`x`, as the statement is universally quantified over both. -/
theorem claim_C8_symv_host_alpha0_beta1 (upper : Bool) (n : Nat) (A : Mem)
    (offseta lda strideA : Int) (x : Mem) (offsetx incx stridex : Int)
    (y : Mem) (offsety incy stridey : Int) (batch_count : Nat) :
    rocblas_internal_symv_template_host upper n 0 A offseta lda strideA x
      offsetx incx stridex 1 y offsety incy stridey batch_count
    = (rocblas_status.success, y) := by
  unfold rocblas_internal_symv_template_host
  by_cases h0 : n = 0 ∨ batch_count = 0
  · rw [if_pos h0]
  · rw [if_neg h0]
    by_cases h1 : batch_count = 1 ∧ (0 : Int) = 0 ∧ (1 : Int) = 1
    · rw [if_pos h1]
    · rw [if_neg h1, symv_batched_launch_alpha0_beta1]

theorem symv_res_A_masked (upper : Bool) (n : Nat) (A : Mem) (lda : Int)
    (x : Mem) (incx : Int) (ind ty : Nat) (hind : n ≤ ind) :
    symv_res_A upper n A lda x incx ind ty 16 = 0 := by
  rw [symv_res_A, symv_col_loop_eq_sum upper n A lda x incx ind n ty (by omega)]
  exact Finset.sum_eq_zero fun c _ => if_neg (by omega)

theorem symv_total_masked (upper : Bool) (n : Nat) (A : Mem) (lda : Int)
    (x : Mem) (incx : Int) (ind : Nat) (hind : n ≤ ind) :
    symv_reduce (fun ty => symv_res_A upper n A lda x incx ind ty 16) 16 = 0 := by
  rw [symv_reduce_eq_sum]
  exact Finset.sum_eq_zero fun ty _ => symv_res_A_masked upper n A lda x incx ind ty hind

/-- C7: symv run with increment -1 from the dispatcher-shifted base (shifted
by `-(-1)·(n-1) = n-1` elements) produces, at every address, the same result
as symv run with increment +1 on the explicitly reversed vector (reversal of
the window `[o, o+n-1]`); and the dispatcher's shift is exactly
`offset + (-inc)·(n-1)` for every negative increment. -/
theorem claim_C7_negative_increment_equivalence (upper : Bool) (n : Nat)
    (alpha : Int) (A : Mem) (lda : Int) (x : Mem) (o : Int) (beta : Int)
    (y : Mem) (incy : Int) (hn : 1 ≤ n) :
    (∀ a : Int,
      symv_kernel_calc_mem upper n alpha A lda (view x (shift_offset o (-1) n))
        (-1) beta y incy symv_DIM_Y a
      = symv_kernel_calc_mem upper n alpha A lda
          (view (fun t => x (2 * o + ((n : Int) - 1) - t)) (shift_offset o 1 n))
          1 beta y incy symv_DIM_Y a)
    ∧ (∀ off inc : Int, inc < 0 →
        shift_offset off inc n = off + (-inc) * ((n : Int) - 1)) := by
  have h16 : symv_DIM_Y = 16 := rfl
  constructor
  · have hx : ∀ c : Nat,
        (view x (shift_offset o (-1) n)) ((c : Int) * (-1))
        = (view (fun t => x (2 * o + ((n : Int) - 1) - t)) (shift_offset o 1 n))
            ((c : Int) * 1) := by
      intro c
      simp only [view, shift_offset]
      rw [if_pos (by norm_num : (-1 : Int) < 0), if_neg (by norm_num : ¬ (1 : Int) < 0)]
      congr 1
      ring
    have hrow : ∀ ind : Nat,
        symv_kernel_calc_row upper n alpha A lda (view x (shift_offset o (-1) n))
          (-1) beta y incy 16 ind
        = symv_kernel_calc_row upper n alpha A lda
            (view (fun t => x (2 * o + ((n : Int) - 1) - t)) (shift_offset o 1 n))
            1 beta y incy 16 ind := by
      intro ind
      unfold symv_kernel_calc_row
      by_cases ha : alpha = 0
      · rw [if_pos ha, if_pos ha]
      · rw [if_neg ha, if_neg ha]
        by_cases hind : ind < n
        · have htot :
              symv_reduce (fun ty => symv_res_A upper n A lda
                (view x (shift_offset o (-1) n)) (-1) ind ty 16) 16
              = symv_reduce (fun ty => symv_res_A upper n A lda
                  (view (fun t => x (2 * o + ((n : Int) - 1) - t)) (shift_offset o 1 n))
                  1 ind ty 16) 16 := by
            rw [symv_total_eq_sum upper n A lda _ (-1) ind hind,
              symv_total_eq_sum upper n A lda _ 1 ind hind]
            exact Finset.sum_congr rfl fun c _ => by rw [hx c]
          rw [htot]
        · rw [symv_total_masked upper n A lda _ (-1) ind (by omega),
            symv_total_masked upper n A lda _ 1 ind (by omega)]
    intro a
    rw [h16]
    unfold symv_kernel_calc_mem
    exact congrFun (congrArg (fun v => writeRows y incy v n) (funext hrow)) a
  · intro off inc hinc
    rw [shift_offset, if_pos hinc]
    ring

theorem claim_C7_witness :
    shift_offset 5 (-3) 2 = 5 + (-(-3)) * (((2 : Nat) : Int) - 1) :=
  (claim_C7_negative_increment_equivalence true 2 1 symvA_ex 2 symvx_ex 0 0
    symvy_ex 1 (by decide)).2 5 (-3) (by decide)

theorem symv_read_congr (upper : Bool) (n : Nat) (A A' : Mem) (lda : Int)
    (hA : ∀ i j : Nat, i < n → j < n → onTriangle upper i j →
      A ((i : Int) + (j : Int) * lda) = A' ((i : Int) + (j : Int) * lda))
    (ind col : Nat) (hind : ind < n) (hcol : col < n) :
    symv_read upper A lda ind col = symv_read upper A' lda ind col := by
  unfold symv_read
  by_cases hc : ind ≤ col
  · rw [if_pos hc, if_pos hc]
    rcases upper with _ | _
    · simp only [Bool.false_eq_true, if_false, Bool.not_false, if_true]
      exact hA col ind hcol hind (by unfold onTriangle; simpa using hc)
    · simp only [if_true]
      exact hA ind col hind hcol (by unfold onTriangle; simpa using hc)
  · rw [if_neg hc, if_neg hc]
    rcases upper with _ | _
    · simp only [Bool.not_false, if_true]
      exact hA ind col hind hcol (by unfold onTriangle; simp; omega)
    · simp only [Bool.not_true, Bool.false_eq_true, if_false]
      exact hA col ind hcol hind (by unfold onTriangle; simp; omega)

/-- C9: workers whose global row `ind` is at or beyond `n` accumulate
nothing (their column loop contributes 0, independently of every buffer) and
the kernel writes nothing outside the addresses `{r·incy | r < n}`; and every
read the kernel makes lies in the stored triangle of `A`
(`{i + j·lda | i,j < n, (i,j) on the selected triangle}`) and the n-element
windows of `x` and `y`: buffers that agree there produce identical results. -/
theorem claim_C9_symv_accesses_in_bounds (upper : Bool) (n : Nat) (alpha : Int)
    (A : Mem) (lda : Int) (x : Mem) (incx : Int) (beta : Int) (y : Mem)
    (incy : Int) (hlda : (n : Int) ≤ lda) (hlda1 : 1 ≤ lda) (hx : incx ≠ 0)
    (hy : incy ≠ 0) :
    (∀ ind ty : Nat, n ≤ ind →
      symv_res_A upper n A lda x incx ind ty symv_DIM_Y = 0)
    ∧ (∀ a : Int, (∀ r : Nat, r < n → a ≠ (r : Int) * incy) →
        symv_kernel_calc_mem upper n alpha A lda x incx beta y incy symv_DIM_Y a = y a)
    ∧ (∀ A' x' y' : Mem,
        (∀ i j : Nat, i < n → j < n → onTriangle upper i j →
          A ((i : Int) + (j : Int) * lda) = A' ((i : Int) + (j : Int) * lda)) →
        (∀ c : Nat, c < n → x ((c : Int) * incx) = x' ((c : Int) * incx)) →
        (∀ r : Nat, r < n → y ((r : Int) * incy) = y' ((r : Int) * incy)) →
        ∀ r : Nat, r < n →
          symv_kernel_calc_mem upper n alpha A lda x incx beta y incy symv_DIM_Y
            ((r : Int) * incy)
          = symv_kernel_calc_mem upper n alpha A' lda x' incx beta y' incy symv_DIM_Y
              ((r : Int) * incy)) := by
  have h16 : symv_DIM_Y = 16 := rfl
  refine ⟨?_, ?_, ?_⟩
  · intro ind ty hind
    rw [h16]
    exact symv_res_A_masked upper n A lda x incx ind ty hind
  · intro a ha
    rw [symv_kernel_calc_mem]
    exact writeRows_frame y incy _ n a ha
  · intro A' x' y' hA hxw hyw r hr
    rw [symv_kernel_calc_mem, symv_kernel_calc_mem,
      writeRows_at y incy hy _ n r hr, writeRows_at y' incy hy _ n r hr,
      symv_kernel_calc_row, symv_kernel_calc_row, h16]
    have hyr : y ((r : Int) * incy) = y' ((r : Int) * incy) := hyw r hr
    by_cases ha0 : alpha = 0
    · rw [if_pos ha0, if_pos ha0, hyr]
    · rw [if_neg ha0, if_neg ha0]
      have htot :
          symv_reduce (fun ty => symv_res_A upper n A lda x incx r ty 16) 16
          = symv_reduce (fun ty => symv_res_A upper n A' lda x' incx r ty 16) 16 := by
        rw [symv_total_eq_sum upper n A lda x incx r hr,
          symv_total_eq_sum upper n A' lda x' incx r hr]
        refine Finset.sum_congr rfl fun c hc => ?_
        have hcn : c < n := Finset.mem_range.mp hc
        rw [symv_read_congr upper n A A' lda hA r c hr hcn, hxw c hcn]
      rw [htot, hyr]

theorem claim_C9_witness :
    symv_res_A true 3 symvA_ex 3 symvx_ex 1 5 0 symv_DIM_Y = 0 :=
  (claim_C9_symv_accesses_in_bounds true 3 2 symvA_ex 3 symvx_ex 1 0 symvy_ex 1
    (by decide) (by decide) (by decide) (by decide)).1 5 0 (by decide)

/-- C10: if the launch supplies a thread count different from the
compile-time tile size `DIM_X * DIM_Y`, every worker returns immediately and
the kernel leaves `y` bit-identical (for every `A`, `x`, `y`, so no buffer is
read or written); and under the dispatcher's fixed configuration —
template arguments `symv_DIM_X, symv_DIM_Y` with a `symv_DIM_X × symv_DIM_Y`
thread block — the guard never fires and the kernel body always executes. -/
theorem claim_C10_thread_count_guard (DIM_X DIM_Y num_threads : Nat)
    (upper : Bool) (n : Nat) (alpha beta : Int) (A : Mem) (lda : Int)
    (x : Mem) (incx : Int) (y : Mem) (incy : Int) :
    (DIM_X * DIM_Y ≠ num_threads →
      symv_kernel DIM_X DIM_Y num_threads upper n alpha beta A lda x incx y incy = y)
    ∧ (symv_kernel symv_DIM_X symv_DIM_Y (symv_DIM_X * symv_DIM_Y) upper n alpha
        beta A lda x incx y incy
      = symv_kernel_after_guard symv_DIM_Y upper n alpha beta A lda x incx y incy) := by
  constructor
  · intro h
    rw [symv_kernel, if_pos h]
  · rw [symv_kernel, if_neg (fun h => h rfl)]

theorem claim_C10_witness :
    symv_kernel 2 2 5 true 3 2 0 symvA_ex 3 symvx_ex 1 symvy_ex 1 = symvy_ex :=
  (claim_C10_thread_count_guard 2 2 5 true 3 2 0 symvA_ex 3 symvx_ex 1 symvy_ex 1).1
    (by decide)

/-! ## Lemmas about the syr embedding -/

theorem syr_active_lt (uplo : rocblas_fill) (n tx ty : Nat)
    (h : syr_active uplo n tx ty) : tx < n ∧ ty < n := by
  unfold syr_active at h
  by_cases hl : uplo = rocblas_fill.lower
  · rw [if_pos hl] at h
    omega
  · rw [if_neg hl] at h
    omega

theorem syr_addr_inj (n : Nat) (lda : Int) (hlda : (n : Int) ≤ lda)
    {i i' j j' : Nat} (hi : i < n) (hi' : i' < n)
    (h : (i : Int) + lda * j = (i' : Int) + lda * j') : i = i' ∧ j = j' := by
  have hiI : (i : Int) < lda := lt_of_lt_of_le (by exact_mod_cast hi) hlda
  have hi'I : (i' : Int) < lda := lt_of_lt_of_le (by exact_mod_cast hi') hlda
  have h0i : (0 : Int) ≤ (i : Int) := Int.natCast_nonneg i
  have h0i' : (0 : Int) ≤ (i' : Int) := Int.natCast_nonneg i'
  have hdvd : lda ∣ ((i : Int) - i') := ⟨(j' : Int) - j, by linarith [h]⟩
  have habs : |(i : Int) - i'| < lda := abs_lt.mpr ⟨by omega, by omega⟩
  have hii' : (i : Int) - i' = 0 := Int.eq_zero_of_abs_lt_dvd hdvd habs
  have hie : i = i' := by omega
  refine ⟨hie, ?_⟩
  have hld0 : lda ≠ 0 := by omega
  have : lda * (j : Int) = lda * (j' : Int) := by omega
  have := mul_left_cancel₀ hld0 this
  omega

theorem syr_loop_tx_frame (uplo : rocblas_fill) (n : Nat) (alpha : Int)
    (x : Mem) (incx lda : Int) (ty : Nat) :
    ∀ (txs : Nat) (A : Mem) (a : Int),
      (∀ i : Nat, i < txs → syr_active uplo n i ty → a ≠ (i : Int) + lda * ty) →
      syr_loop_tx uplo n alpha x incx lda ty txs A a = A a := by
  intro txs
  induction txs with
  | zero => intro A a _; rfl
  | succ tx ih =>
    intro A a ha
    show syr_upd uplo n alpha x incx lda tx ty
      (syr_loop_tx uplo n alpha x incx lda ty tx A) a = A a
    unfold syr_upd
    by_cases hact : syr_active uplo n tx ty
    · rw [if_pos hact]
      unfold updMem
      rw [if_neg (ha tx (by omega) hact)]
      exact ih A a fun i hi hia => ha i (by omega) hia
    · rw [if_neg hact]
      exact ih A a fun i hi hia => ha i (by omega) hia

theorem syr_loop_tx_at (uplo : rocblas_fill) (n : Nat) (alpha : Int)
    (x : Mem) (incx lda : Int) (ty : Nat) :
    ∀ (txs : Nat) (A : Mem) (i : Nat), i < txs → syr_active uplo n i ty →
      syr_loop_tx uplo n alpha x incx lda ty txs A ((i : Int) + lda * ty)
      = A ((i : Int) + lda * ty) + alpha * x ((i : Int) * incx) * x ((ty : Int) * incx) := by
  intro txs
  induction txs with
  | zero => intro A i hi _; omega
  | succ tx ih =>
    intro A i hi hact
    show syr_upd uplo n alpha x incx lda tx ty
      (syr_loop_tx uplo n alpha x incx lda ty tx A) ((i : Int) + lda * ty)
      = _
    by_cases hie : i = tx
    · subst hie
      unfold syr_upd
      rw [if_pos hact]
      unfold updMem
      rw [if_pos rfl]
      rw [syr_loop_tx_frame uplo n alpha x incx lda ty i A _
        (fun i' hi' _ h => by
          have : (i' : Int) = (i : Int) := by omega
          have : i' = i := by exact_mod_cast this
          omega)]
    · have hilt : i < tx := by omega
      unfold syr_upd
      by_cases hact' : syr_active uplo n tx ty
      · rw [if_pos hact']
        unfold updMem
        rw [if_neg (by
          intro h
          have : (i : Int) = (tx : Int) := by omega
          have : i = tx := by exact_mod_cast this
          omega)]
        exact ih A i hilt hact
      · rw [if_neg hact']
        exact ih A i hilt hact

theorem syr_loop_frame (uplo : rocblas_fill) (n : Nat) (alpha : Int)
    (x : Mem) (incx lda : Int) (txs : Nat) :
    ∀ (tys : Nat) (A : Mem) (a : Int),
      (∀ i j : Nat, i < txs → j < tys → syr_active uplo n i j → a ≠ (i : Int) + lda * j) →
      syr_loop uplo n alpha x incx lda txs tys A a = A a := by
  intro tys
  induction tys with
  | zero => intro A a _; rfl
  | succ ty ih =>
    intro A a ha
    show syr_loop_tx uplo n alpha x incx lda ty txs
      (syr_loop uplo n alpha x incx lda txs ty A) a = A a
    rw [syr_loop_tx_frame uplo n alpha x incx lda ty txs _ a
      (fun i hi hia => ha i ty hi (by omega) hia)]
    exact ih A a fun i j hi hj hij => ha i j hi (by omega) hij

theorem syr_loop_at (uplo : rocblas_fill) (n : Nat) (alpha : Int)
    (x : Mem) (incx lda : Int) (hlda : (n : Int) ≤ lda) :
    ∀ (tys : Nat) (A : Mem) (i j : Nat), tys ≤ n → i < n → j < tys →
      syr_active uplo n i j →
      syr_loop uplo n alpha x incx lda n tys A ((i : Int) + lda * j)
      = A ((i : Int) + lda * j) + alpha * x ((i : Int) * incx) * x ((j : Int) * incx) := by
  intro tys
  induction tys with
  | zero => intro A i j _ _ hj _; omega
  | succ ty ih =>
    intro A i j htys hi hj hact
    show syr_loop_tx uplo n alpha x incx lda ty n
      (syr_loop uplo n alpha x incx lda n ty A) ((i : Int) + lda * j) = _
    by_cases hjty : j = ty
    · subst hjty
      rw [syr_loop_tx_at uplo n alpha x incx lda j n _ i hi hact]
      rw [syr_loop_frame uplo n alpha x incx lda n j A _
        (fun i' j' hi' hj' hact' h => by
          have := syr_addr_inj n lda hlda hi hi' h
          omega)]
    · have hjlt : j < ty := by omega
      rw [syr_loop_tx_frame uplo n alpha x incx lda ty n _ _
        (fun i' hi' hact' h => by
          have := syr_addr_inj n lda hlda hi hi' h
          omega)]
      exact ih A i j (by omega) hi hjlt hact

/-- C2: for a valid syr call (`lda ≥ max(n,1)`, non-zero increment), every
position `(i,j)` on the selected triangle receives exactly
`A[i,j] + alpha·x[i]·x[j]`, computed from the old value at that one address;
every address not of the form `i + lda·j` for an active `(i,j)` is left
bit-identical; and distinct active positions live at distinct addresses, so
each triangle entry is written by exactly one worker. -/
theorem claim_C2_syr_updates_triangle (uplo : rocblas_fill) (n : Nat)
    (alpha : Int) (x : Mem) (incx : Int) (A : Mem) (lda : Int)
    (hlda : (n : Int) ≤ lda) (hlda1 : 1 ≤ lda) (hx : incx ≠ 0) :
    (∀ i j : Nat, syr_active uplo n i j →
      rocblas_syr_kernel uplo n alpha x incx A lda ((i : Int) + lda * j)
      = A ((i : Int) + lda * j) + alpha * x ((i : Int) * incx) * x ((j : Int) * incx))
    ∧ (∀ a : Int, (∀ i j : Nat, syr_active uplo n i j → a ≠ (i : Int) + lda * j) →
        rocblas_syr_kernel uplo n alpha x incx A lda a = A a)
    ∧ (∀ i j i' j' : Nat, syr_active uplo n i j → syr_active uplo n i' j' →
        (i : Int) + lda * j = (i' : Int) + lda * j' → i = i' ∧ j = j') := by
  refine ⟨?_, ?_, ?_⟩
  · intro i j hact
    have hlt := syr_active_lt uplo n i j hact
    rw [rocblas_syr_kernel]
    by_cases ha : alpha = 0
    · rw [if_pos ha, ha]
      ring
    · rw [if_neg ha]
      exact syr_loop_at uplo n alpha x incx lda hlda n A i j (le_refl n) hlt.1
        (by omega) hact
  · intro a ha
    rw [rocblas_syr_kernel]
    by_cases halpha : alpha = 0
    · rw [if_pos halpha]
    · rw [if_neg halpha]
      exact syr_loop_frame uplo n alpha x incx lda n n A a
        (fun i j _ _ hact => ha i j hact)
  · intro i j i' j' hact hact' h
    exact syr_addr_inj n lda hlda (syr_active_lt uplo n i j hact).1
      (syr_active_lt uplo n i' j' hact').1 h

/-- Stored lower triangle of the spec's syr test: `A[0][0]=1, A[1][0]=0,
A[1][1]=1`, column-major with `lda = 2` (sentinel 99 elsewhere, in
particular at the unstored upper entry `(0,1)`, address 2). -/
def syrA_ex : Mem := fun a =>
  if a = 0 then 1 else if a = 1 then 0 else if a = 3 then 1 else 99

/-- Test vector `x = [2,3]` for syr. -/
def syrx_ex : Mem := fun a =>
  if a = 0 then 2 else if a = 1 then 3 else 99

/-- Concrete evaluation of the spec's syr test: n = 2, lower, alpha = 1,
stored entries become 5, 6, 10, and the unstored upper entry (address 2)
keeps its sentinel. -/
theorem syr_example_values :
    rocblas_syr_kernel rocblas_fill.lower 2 1 syrx_ex 1 syrA_ex 2 0 = 5
    ∧ rocblas_syr_kernel rocblas_fill.lower 2 1 syrx_ex 1 syrA_ex 2 1 = 6
    ∧ rocblas_syr_kernel rocblas_fill.lower 2 1 syrx_ex 1 syrA_ex 2 3 = 10
    ∧ rocblas_syr_kernel rocblas_fill.lower 2 1 syrx_ex 1 syrA_ex 2 2 = 99 := by
  refine ⟨?_, ?_, ?_, ?_⟩ <;> decide

theorem claim_C2_witness :
    rocblas_syr_kernel rocblas_fill.lower 2 1 syrx_ex 1 syrA_ex 2
      (((1 : Nat) : Int) + 2 * ((0 : Nat) : Int))
    = syrA_ex (((1 : Nat) : Int) + 2 * ((0 : Nat) : Int))
      + 1 * syrx_ex (((1 : Nat) : Int) * 1) * syrx_ex (((0 : Nat) : Int) * 1) :=
  (claim_C2_syr_updates_triangle rocblas_fill.lower 2 1 syrx_ex 1 syrA_ex 2
    (by decide) (by decide) (by decide)).1 1 0 (by decide)

/-! ## Argument-validation claims -/

/-- C3 counterexample: the claim says a call with a valid triangle selector
and valid sizes where `n == 0` returns the trivial success status even when
the pointer mode is host-resident and a scalar stride is non-zero.  In the
symv checker the host-strided-scalar check runs FIRST, so with `n = 0`,
`lda = 1`, `incx = incy = 1`, `batch_count = 0`, host mode,
`stride_alpha = 1` the call returns `not_implemented`, not success. -/
theorem claim_C3_counterexample :
    rocblas_symv_arg_check PointerMode.host rocblas_fill.lower 0 Ptr.valid 1
      Ptr.valid 1 Ptr.valid 1 Ptr.valid 0 Ptr.valid 1 0
    = rocblas_status.not_implemented
    ∧ rocblas_symv_arg_check PointerMode.host rocblas_fill.lower 0 Ptr.valid 1
        Ptr.valid 1 Ptr.valid 1 Ptr.valid 0 Ptr.valid 1 0
      ≠ rocblas_status.success := by
  exact ⟨by decide, by decide⟩

/-- C3 (amended): the quick-return rule holds for symv only after its
leading host-strided-scalar check: with a valid triangle selector and valid
sizes, `n == 0` or `batch_count == 0` yields success as long as the call is
not host-resident with a non-zero scalar stride, in which case
`not_implemented` wins; for syr there is no stride check at all, and the
quick return yields success with no further checks (pointers may even be
null). -/
theorem claim_C3_amended_quick_return (pointer_mode : PointerMode)
    (uplo : rocblas_fill) (n : Int) (alpha : Ptr) (stride_alpha : Int)
    (A : Ptr) (lda : Int) (x : Ptr) (incx : Int) (beta : Ptr)
    (stride_beta : Int) (y : Ptr) (incy : Int) (batch_count : Int)
    (huplo : uplo = rocblas_fill.lower ∨ uplo = rocblas_fill.upper)
    (hsize : ¬(n < 0 ∨ lda < n ∨ lda < 1 ∨ incx = 0 ∨ incy = 0 ∨ batch_count < 0))
    (hquick : n = 0 ∨ batch_count = 0) :
    (¬(pointer_mode = PointerMode.host ∧ (stride_alpha ≠ 0 ∨ stride_beta ≠ 0)) →
      rocblas_symv_arg_check pointer_mode uplo n alpha stride_alpha A lda x incx
        beta stride_beta y incy batch_count = rocblas_status.success)
    ∧ (pointer_mode = PointerMode.host ∧ (stride_alpha ≠ 0 ∨ stride_beta ≠ 0) →
        rocblas_symv_arg_check pointer_mode uplo n alpha stride_alpha A lda x incx
          beta stride_beta y incy batch_count = rocblas_status.not_implemented)
    ∧ rocblas_syr_arg_check uplo n alpha stride_alpha x incx A lda batch_count
      = rocblas_status.success := by
  have huplo' : ¬(uplo ≠ rocblas_fill.lower ∧ uplo ≠ rocblas_fill.upper) := by
    rcases huplo with h | h <;> simp [h]
  refine ⟨?_, ?_, ?_⟩
  · intro hns
    rw [rocblas_symv_arg_check, if_neg hns, if_neg huplo', if_neg hsize,
      if_pos hquick]
  · intro hs
    rw [rocblas_symv_arg_check, if_pos hs]
  · have hsize' : ¬(n < 0 ∨ incx = 0 ∨ lda < n ∨ lda < 1 ∨ batch_count < 0) := by
      intro h
      exact hsize (by tauto)
    rw [rocblas_syr_arg_check, if_neg huplo', if_neg hsize', if_pos hquick]

theorem claim_C3_witness :
    rocblas_symv_arg_check PointerMode.device rocblas_fill.lower 0 Ptr.valid 1
      Ptr.valid 1 Ptr.valid 1 Ptr.valid 1 Ptr.valid 1 0
    = rocblas_status.success :=
  (claim_C3_amended_quick_return PointerMode.device rocblas_fill.lower 0
    Ptr.valid 1 Ptr.valid 1 Ptr.valid 1 Ptr.valid 1 Ptr.valid 1 0
    (Or.inl rfl) (by decide) (by decide)).1 (by decide)

theorem syr_arg_check_never_not_implemented (uplo : rocblas_fill) (n : Int)
    (alpha : Ptr) (stride_alpha : Int) (x : Ptr) (incx : Int) (A : Ptr)
    (lda : Int) (batch_count : Int) :
    rocblas_syr_arg_check uplo n alpha stride_alpha x incx A lda batch_count
    ≠ rocblas_status.not_implemented := by
  unfold rocblas_syr_arg_check
  split_ifs <;> decide

/-- C4 counterexample: the claim says a non-trivial syr call in host-resident
mode with `stride_alpha ≠ 0` returns `not_implemented`.  The syr validation
has no such check (it does not even see the handle): with `n = 1`,
`stride_alpha = 1`, `incx = 1`, `lda = 1`, `batch_count = 1`, host mode, the
call proceeds to the launch and returns success. -/
theorem claim_C4_counterexample :
    rocblas_syr_call_status PointerMode.host rocblas_fill.lower 1 Ptr.valid 1
      Ptr.valid 1 Ptr.valid 1 1 = rocblas_status.success
    ∧ rocblas_syr_call_status PointerMode.host rocblas_fill.lower 1 Ptr.valid 1
        Ptr.valid 1 Ptr.valid 1 1 ≠ rocblas_status.not_implemented := by
  exact ⟨by decide, by decide⟩

/-- C4 (amended): only symv rejects host-resident strided scalars: every symv
call in host mode with `stride_alpha ≠ 0` or `stride_beta ≠ 0` (trivial or
not) returns `not_implemented` from its very first check, before any launch;
syr never returns `not_implemented` — its validation has no pointer-mode or
stride check whatsoever. -/
theorem claim_C4_amended_host_strided (pointer_mode : PointerMode)
    (uplo : rocblas_fill) (n : Int) (alpha : Ptr) (stride_alpha : Int)
    (A : Ptr) (lda : Int) (x : Ptr) (incx : Int) (beta : Ptr)
    (stride_beta : Int) (y : Ptr) (incy : Int) (batch_count : Int) :
    (pointer_mode = PointerMode.host → stride_alpha ≠ 0 ∨ stride_beta ≠ 0 →
      rocblas_symv_arg_check pointer_mode uplo n alpha stride_alpha A lda x incx
        beta stride_beta y incy batch_count = rocblas_status.not_implemented)
    ∧ (∀ (pm' : PointerMode) (uplo' : rocblas_fill) (n' : Int) (alpha' : Ptr)
        (sa' : Int) (x' : Ptr) (incx' : Int) (A' : Ptr) (lda' : Int) (bc' : Int),
        rocblas_syr_call_status pm' uplo' n' alpha' sa' x' incx' A' lda' bc'
        ≠ rocblas_status.not_implemented) := by
  constructor
  · intro hpm hs
    rw [rocblas_symv_arg_check, if_pos ⟨hpm, hs⟩]
  · intro pm' uplo' n' alpha' sa' x' incx' A' lda' bc'
    unfold rocblas_syr_call_status
    by_cases hc : rocblas_syr_arg_check uplo' n' alpha' sa' x' incx' A' lda' bc'
        = rocblas_status.continue_
    · rw [if_pos hc]
      decide
    · rw [if_neg hc]
      exact syr_arg_check_never_not_implemented uplo' n' alpha' sa' x' incx' A' lda' bc'

theorem claim_C4_witness :
    rocblas_symv_arg_check PointerMode.host rocblas_fill.upper 4 Ptr.valid 2
      Ptr.valid 4 Ptr.valid 1 Ptr.valid 0 Ptr.valid 1 1
    = rocblas_status.not_implemented :=
  (claim_C4_amended_host_strided PointerMode.host rocblas_fill.upper 4 Ptr.valid
    2 Ptr.valid 4 Ptr.valid 1 Ptr.valid 0 Ptr.valid 1 1).1 rfl (Or.inl (by decide))
